import Mathlib

/-!
Verification development for the Liminal repository (liminal-vm): a shallow
embedding in Lean 4 of `src/parser.py` (tokenizer and recursive-descent
parser) and `src/vm.py` (the virtual machine), together with theorems
settling the specification claims.

Modelling conventions:
* Python exceptions are modelled by the sum type `VMExc`; the exceptions
  caught by `VirtualMachine.execute` are turned into result statuses, the
  ones it does not catch (`BreakBlock`, and dynamic-type errors such as
  calling `.strip()` on an `int`, modelled as `pyErr`) escape as
  `Except.error`.
* Recursive functions carry an explicit fuel argument (structural on `Nat`)
  so that every definition is kernel-reducible; running out of fuel yields
  the artificial outcome `fuelOut`, which is never hit at the fuel values
  used in the concrete theorems, and which universally quantified theorems
  treat as just another escape.
* Python `dict` is an insertion-ordered association list with unique keys;
  `dict` equality (order-insensitive) is `dictEqB`.
* Token `column` fields are omitted: the parser destructures but never uses
  them.
-/

namespace Liminal

/-- The opening-brace character. -/
def lbraceCh : Char := Char.ofNat 123

/-- The closing-brace character. -/
def rbraceCh : Char := Char.ofNat 125

/-- A single apostrophe, used in error-message formatting. -/
def sq : String := String.mk [Char.ofNat 39]

/-- A token `(kind, lexeme, line)` as produced by `Tokenizer.tokenize`
(the unused `column` component is omitted). -/
structure Token where
  kind : String
  value : String
  line : Nat
deriving Repr, DecidableEq

/-- Characters of the WHITESPACE class `[ \t\n\r]+`. -/
def isWsCh (c : Char) : Bool :=
  c == ' ' || c == '\t' || c == '\n' || c == '\r'

/-- Characters of the SYMBOL class `[<>=!]+`. -/
def isSymCh (c : Char) : Bool :=
  c == '<' || c == '>' || c == '=' || c == '!'

/-- First character of a KEYWORD: `[A-Z_]`. -/
def isKwStart (c : Char) : Bool := c.isUpper || c == '_'

/-- Continuation character of a KEYWORD: `[A-Z0-9_]`. -/
def isKwCont (c : Char) : Bool := c.isUpper || c.isDigit || c == '_'

/-- First character of an IDENT: `[a-z_]` (a leading `_` is taken by the
higher-priority KEYWORD pattern, exactly as in the regex alternation). -/
def isIdStart (c : Char) : Bool := c.isLower

/-- Continuation character of an IDENT: `[a-z0-9_]`. -/
def isIdCont (c : Char) : Bool := c.isLower || c.isDigit || c == '_'

/-- One scanning step of `Tokenizer.tokenize`: at each position the regex
alternation tries the patterns in declaration order and emits the greedy
match of the first pattern that matches; a position where no pattern
matches is skipped by `re.finditer` without any token or error.  COMMENT
advances the line counter by one; WHITESPACE advances it by the number of
newlines; STRING values have their quotes removed. -/
def tokenizeAux : Nat → Nat → List Char → List Token → List Token
  | 0, _, _, acc => acc.reverse
  | _ + 1, _, [], acc => acc.reverse
  | fuel + 1, line, c :: cs, acc =>
    if c == '#' then
      tokenizeAux fuel (line + 1) (cs.dropWhile (fun ch => !(ch == '\n'))) acc
    else if c == lbraceCh then
      tokenizeAux fuel line cs (⟨"LBRACE", String.mk [lbraceCh], line⟩ :: acc)
    else if c == rbraceCh then
      tokenizeAux fuel line cs (⟨"RBRACE", String.mk [rbraceCh], line⟩ :: acc)
    else if c == '"' then
      match cs.dropWhile (fun ch => !(ch == '"')) with
      | _ :: rest =>
        tokenizeAux fuel line rest
          (⟨"STRING", String.mk (cs.takeWhile (fun ch => !(ch == '"'))),
            line⟩ :: acc)
      | [] =>
        -- no closing quote: the STRING pattern fails and no other pattern
        -- matches at `"`, so the byte is skipped
        tokenizeAux fuel line cs acc
    else if c.isDigit then
      tokenizeAux fuel line (cs.dropWhile Char.isDigit)
        (⟨"NUMBER", String.mk (c :: cs.takeWhile Char.isDigit), line⟩ :: acc)
    else if isKwStart c then
      tokenizeAux fuel line (cs.dropWhile isKwCont)
        (⟨"KEYWORD", String.mk (c :: cs.takeWhile isKwCont), line⟩ :: acc)
    else if isIdStart c then
      tokenizeAux fuel line (cs.dropWhile isIdCont)
        (⟨"IDENT", String.mk (c :: cs.takeWhile isIdCont), line⟩ :: acc)
    else if isSymCh c then
      tokenizeAux fuel line (cs.dropWhile isSymCh)
        (⟨"SYMBOL", String.mk (c :: cs.takeWhile isSymCh), line⟩ :: acc)
    else if isWsCh c then
      tokenizeAux fuel
        (line + ((c :: cs.takeWhile isWsCh).filter (· == '\n')).length)
        (cs.dropWhile isWsCh) acc
    else
      -- byte matches no rule: re.finditer silently skips it
      tokenizeAux fuel line cs acc

/-- `Tokenizer(source).tokenize()`. -/
def tokenize (source : String) : List Token :=
  tokenizeAux (source.length + 1) 1 source.data []

/-! ## Program tree (`parser.py` dataclasses) -/

mutual

/-- The `value` field of an `Argument`: a string, an `int` (from a NUMBER
literal), or the operation list of a SATURATE block. -/
inductive ArgValue where
  | str (s : String)
  | int (i : Int)
  | block (ops : List Operation)

/-- `Argument(type=..., value=...)`; `type` is `LITERAL`, `REFERENCE` or
`BLOCK`. -/
inductive Argument where
  | mk (type : String) (value : ArgValue)

/-- `Operation(operator=..., arguments=..., line=...)`. -/
inductive Operation where
  | mk (operator : String) (arguments : List Argument) (line : Nat)

end

/-- The `value` field accessor. -/
def Argument.value : Argument → ArgValue
  | .mk _ v => v

/-- The `type` field accessor. -/
def Argument.type : Argument → String
  | .mk t _ => t

/-- The `operator` field accessor. -/
def Operation.operator : Operation → String
  | .mk op _ _ => op

/-- The `arguments` field accessor. -/
def Operation.arguments : Operation → List Argument
  | .mk _ args _ => args

/-- `Phase(name=..., operations=...)`. -/
structure Phase where
  name : String
  operations : List Operation

/-- `Program(phases=...)`. -/
structure Program where
  phases : List Phase

/-- `ParseError` with its message and optional line. -/
structure ParseErr where
  msg : String
  line : Option Nat
deriving Repr, DecidableEq

/-- `OPERATOR_ARITY`. -/
def OPERATOR_ARITY : List (String × Nat) :=
  [("PUSH", 1), ("INVERT", 0), ("BIND", 2), ("RELEASE", 1),
   ("GATE", 1), ("SATURATE", 1), ("WITNESS", 0), ("HALT", 0)]

/-- Membership of an operator in `OPERATOR_ARITY`. -/
def knownOperator (op : String) : Bool :=
  OPERATOR_ARITY.any (fun p => p.1 == op)

/-- Arity lookup in `OPERATOR_ARITY`. -/
def arityOf (op : String) : Nat :=
  ((OPERATOR_ARITY.find? (fun p => p.1 == op)).map (·.2)).getD 0

/-! ## Parser (`Parser` methods) -/

/-- `Parser.consume`: take one token, optionally checking its kind. -/
def consumeTok (expected : Option String) (ts : List Token) :
    Except ParseErr (Token × List Token) :=
  match ts with
  | [] => .error ⟨"Unexpected end of file", none⟩
  | t :: rest =>
    match expected with
    | none => .ok (t, rest)
    | some e =>
      if t.kind == e then .ok (t, rest)
      else .error ⟨"Expected " ++ e ++ ", got " ++ t.kind ++ " " ++
                   sq ++ t.value ++ sq, some t.line⟩

/-- Decimal value of a digit sequence (`int` applied to a NUMBER lexeme). -/
def decimalVal (cs : List Char) : Nat :=
  cs.foldl (fun acc c => 10 * acc + (c.toNat - 48)) 0

/-- `Parser.parse_argument`: STRING and NUMBER become literals, IDENT a
reference, and a SYMBOL token starts a condition fragment that absorbs a
following NUMBER or IDENT. -/
def parseArgument (ts : List Token) :
    Except ParseErr (Argument × List Token) :=
  match ts with
  | [] => .error ⟨"Expected argument", none⟩
  | t :: rest =>
    if t.kind == "STRING" then
      .ok (.mk "LITERAL" (.str t.value), rest)
    else if t.kind == "NUMBER" then
      .ok (.mk "LITERAL" (.int (decimalVal t.value.data)), rest)
    else if t.kind == "IDENT" then
      .ok (.mk "REFERENCE" (.str t.value), rest)
    else if t.kind == "SYMBOL" then
      match rest with
      | t2 :: rest2 =>
        if t2.kind == "NUMBER" || t2.kind == "IDENT" then
          .ok (.mk "REFERENCE" (.str (t.value ++ " " ++ t2.value)), rest2)
        else
          .ok (.mk "REFERENCE" (.str t.value), rest)
      | [] => .ok (.mk "REFERENCE" (.str t.value), rest)
    else
      .error ⟨"Unexpected token type " ++ t.kind ++ " as argument", some t.line⟩

/-- The argument loop of `parse_operation`: consume exactly `n` arguments. -/
def parseArgs : Nat → List Token → Except ParseErr (List Argument × List Token)
  | 0, ts => .ok ([], ts)
  | n + 1, ts => do
    let (arg, ts) ← parseArgument ts
    let (args, ts) ← parseArgs n ts
    .ok (arg :: args, ts)

mutual

/-- `Parser.parse_operation`: a KEYWORD that must be a known operator,
followed either by a braced block (SATURATE) or by `arity` arguments. -/
def parseOperation : Nat → List Token → Except ParseErr (Operation × List Token)
  | 0, _ => .error ⟨"fuel", none⟩
  | fuel + 1, ts => do
    let (opTok, ts) ← consumeTok (some "KEYWORD") ts
    if knownOperator opTok.value then
      if opTok.value == "SATURATE" then do
        let (_, ts) ← consumeTok (some "LBRACE") ts
        let (blockOps, ts) ← parseOpsUntilRBrace fuel
          ⟨"Unclosed SATURATE block", some opTok.line⟩ ts
        let (_, ts) ← consumeTok (some "RBRACE") ts
        .ok (.mk opTok.value [.mk "BLOCK" (.block blockOps)] opTok.line, ts)
      else do
        let (args, ts) ← parseArgs (arityOf opTok.value) ts
        .ok (.mk opTok.value args opTok.line, ts)
    else
      .error ⟨"Unknown operator " ++ sq ++ opTok.value ++ sq, some opTok.line⟩

/-- The `while self.peek() != 'RBRACE'` loops of `parse_phase` and
`parse_operation` (SATURATE case), with the respective unclosed-block
error. -/
def parseOpsUntilRBrace : Nat → ParseErr → List Token →
    Except ParseErr (List Operation × List Token)
  | 0, _, _ => .error ⟨"fuel", none⟩
  | fuel + 1, unclosed, ts =>
    match ts with
    | [] => .error unclosed
    | t :: _ =>
      if t.kind == "RBRACE" then .ok ([], ts)
      else do
        let (op, ts') ← parseOperation fuel ts
        let (ops, ts'') ← parseOpsUntilRBrace fuel unclosed ts'
        .ok (op :: ops, ts'')

end

/-- `Parser.parse_phase`: `KEYWORD '{' Operation* '}'`, rejecting an empty
operation list after the closing brace. -/
def parsePhase (fuel : Nat) (ts : List Token) :
    Except ParseErr (Phase × List Token) := do
  let (nameTok, ts) ← consumeTok (some "KEYWORD") ts
  let (_, ts) ← consumeTok (some "LBRACE") ts
  let (ops, ts) ← parseOpsUntilRBrace fuel
    ⟨"Unclosed phase " ++ sq ++ nameTok.value ++ sq, some nameTok.line⟩ ts
  let (_, ts) ← consumeTok (some "RBRACE") ts
  if ops.isEmpty then
    .error ⟨"Phase " ++ sq ++ nameTok.value ++ sq ++
            " must have at least one operation", some nameTok.line⟩
  else
    .ok (⟨nameTok.value, ops⟩, ts)

/-- The phase loop of `Parser.parse_program`. -/
def parsePhases : Nat → List Token → Except ParseErr (List Phase × List Token)
  | 0, _ => .error ⟨"fuel", none⟩
  | _ + 1, [] => .ok ([], [])
  | fuel + 1, ts => do
    let (phase, ts') ← parsePhase fuel ts
    let (phases, ts'') ← parsePhases fuel ts'
    .ok (phase :: phases, ts'')

/-- `parse_program(source)`: tokenize, parse all phases, and reject an
empty program. -/
def parseProgram (source : String) : Except ParseErr Program := do
  let ts := tokenize source
  let (phases, _) ← parsePhases (ts.length + 2) ts
  if phases.isEmpty then
    .error ⟨"Program must have at least one phase", none⟩
  else
    .ok ⟨phases⟩

/-! ## VM data model (`vm.py`) -/

/-- `VMConfig` with its field defaults. -/
structure VMConfig where
  max_operations : Nat := 100000
  max_stack_depth : Nat := 256
  max_saturate_iterations : Nat := 1000
  max_bindings : Nat := 1024
  trace_enabled : Bool := false
deriving Repr, DecidableEq

/-- A checkpoint record appended by WITNESS. -/
structure TraceEntry where
  phase : Option String
  operation : Nat
  stack : List String
  bindings : List (String × String)
deriving Repr, DecidableEq

/-- The mutable state of a `VirtualMachine` instance. -/
structure VMState where
  stack : List String
  bindings : List (String × String)
  phase_counter : Nat
  operation_counter : Nat
  halted : Bool
  trace : List TraceEntry
  current_phase_name : Option String
deriving Repr, DecidableEq

/-- `VirtualMachine.reset()`: the all-empty state. -/
def initState : VMState :=
  ⟨[], [], 0, 0, false, [], none⟩

/-- The `final_state` dictionary of an `ExecutionResult`. -/
structure FinalState where
  stack : List String
  bindings : List (String × String)
  depth : Nat
  binding_count : Nat
deriving Repr, DecidableEq

/-- `ExecutionResult`. -/
structure ExecutionResult where
  status : String
  phases_executed : Nat
  operations_executed : Nat
  final_state : FinalState
  trace : List TraceEntry
  error_message : Option String
deriving Repr, DecidableEq

/-- The Python exceptions that can cross operation boundaries.  The five
`LiminalError` subclasses carry their formatted message; `breakBlock` and
`haltProgram` are the control-flow signals; `pyErr` stands for a dynamic
type error raised by the interpreter itself (e.g. `int.strip`); `fuelOut`
is this embedding's artificial out-of-fuel marker. -/
inductive VMExc where
  | breakBlock
  | haltProgram
  | stackOverflow (msg : String)
  | bindingsOverflow (msg : String)
  | cycleLimit (msg : String)
  | opLimit (msg : String)
  | condErr (msg : String)
  | pyErr
  | fuelOut
deriving Repr, DecidableEq

/-! ### Python `dict` operations on insertion-ordered association lists -/

/-- `key in dict`. -/
def dictHas (m : List (String × String)) (k : String) : Bool :=
  m.any (fun p => p.1 == k)

/-- `dict[key]` as an optional lookup. -/
def dictGet (m : List (String × String)) (k : String) : Option String :=
  (m.find? (fun p => p.1 == k)).map (·.2)

/-- `dict[key] = value`: overwrite in place if the key exists, else append. -/
def dictSet (m : List (String × String)) (k v : String) :
    List (String × String) :=
  if dictHas m k then m.map (fun p => if p.1 == k then (k, v) else p)
  else m ++ [(k, v)]

/-- `dict.pop(key, None)`. -/
def dictDel (m : List (String × String)) (k : String) :
    List (String × String) :=
  m.filter (fun p => !(p.1 == k))

/-- Python `dict` equality: same keys with the same values, order
ignored. -/
def dictEqB (m1 m2 : List (String × String)) : Bool :=
  m1.all (fun p => dictGet m2 p.1 == some p.2) &&
  m2.all (fun p => dictGet m1 p.1 == some p.2)

/-- `VirtualMachine.states_equal` on `snapshot_state` pairs: ordered stack
equality and `dict` equality of bindings. -/
def statesEqual (s1 s2 : List String × List (String × String)) : Bool :=
  s1.1 == s2.1 && dictEqB s1.2 s2.2

/-! ### `str()` coercion of argument values -/

/-- Python `repr` of a string (single-quoted; escape refinements of `repr`
are irrelevant here because this is only reachable from program trees the
parser never produces). -/
def pyReprStr (s : String) : String := sq ++ s ++ sq

mutual

/-- `repr` of an `ArgValue`. -/
def reprArgValue : ArgValue → String
  | .str s => pyReprStr s
  | .int i => toString i
  | .block ops => "[" ++ reprOpList ops ++ "]"

/-- `repr` of an `Argument` dataclass. -/
def reprArg : Argument → String
  | .mk t v => "Argument(type=" ++ pyReprStr t ++ ", value=" ++
      reprArgValue v ++ ")"

/-- `repr` of the elements of an argument list, comma-separated. -/
def reprArgList : List Argument → String
  | [] => ""
  | [a] => reprArg a
  | a :: rest => reprArg a ++ ", " ++ reprArgList rest

/-- `repr` of an `Operation` dataclass. -/
def reprOp : Operation → String
  | .mk op args ln => "Operation(operator=" ++ pyReprStr op ++
      ", arguments=[" ++ reprArgList args ++ "], line=" ++ toString ln ++ ")"

/-- `repr` of the elements of an operation list, comma-separated. -/
def reprOpList : List Operation → String
  | [] => ""
  | [o] => reprOp o
  | o :: rest => reprOp o ++ ", " ++ reprOpList rest

end

/-- Python `str()` applied to an argument value: identity on strings,
decimal rendering of ints, `repr` of a block list. -/
def pyStr : ArgValue → String
  | .str s => s
  | .int i => toString i
  | .block ops => "[" ++ reprOpList ops ++ "]"

/-! ### Condition evaluator (`VirtualMachine.evaluate_condition`) -/

/-- The whitespace set of Python `str.strip()` / `str.split()` (ASCII
part). -/
def isPySpace (c : Char) : Bool :=
  c == ' ' || c == '\t' || c == '\n' || c == '\r' ||
  c == Char.ofNat 11 || c == Char.ofNat 12

/-- `str.strip()`. -/
def pyStrip (s : String) : String :=
  String.mk (((s.data.dropWhile isPySpace).reverse.dropWhile isPySpace).reverse)

/-- Accumulator loop for `str.split()`. -/
def splitWsGo : List Char → List Char → List String → List String
  | [], cur, acc =>
    (if cur.isEmpty then acc else String.mk cur.reverse :: acc).reverse
  | c :: cs, cur, acc =>
    if isPySpace c then
      if cur.isEmpty then splitWsGo cs [] acc
      else splitWsGo cs [] (String.mk cur.reverse :: acc)
    else splitWsGo cs (c :: cur) acc

/-- `str.split()`: split on runs of whitespace, dropping empty pieces. -/
def splitWs (s : String) : List String :=
  splitWsGo s.data [] []

/-- Validity of the digit part of a Python `int()` literal: digits with
single interior underscores.  The flag records whether the previous
character was a digit. -/
def pyIntDigitsOk : List Char → Bool → Bool
  | [], prevDigit => prevDigit
  | c :: cs, prevDigit =>
    if c.isDigit then pyIntDigitsOk cs true
    else if c == '_' then prevDigit && pyIntDigitsOk cs false
    else false

/-- Python `int(str)`: optional surrounding whitespace, optional sign,
decimal digits with single interior underscores; `none` models
`ValueError`. -/
def pyInt (s : String) : Option Int :=
  let cs := (pyStrip s).data
  match cs with
  | '+' :: rest =>
    if pyIntDigitsOk rest false then
      some (decimalVal (rest.filter (fun c => !(c == '_'))))
    else none
  | '-' :: rest =>
    if pyIntDigitsOk rest false then
      some (-(decimalVal (rest.filter (fun c => !(c == '_'))) : Int))
    else none
  | _ =>
    if pyIntDigitsOk cs false then
      some (decimalVal (cs.filter (fun c => !(c == '_'))))
    else none

/-- `VirtualMachine.evaluate_condition` as a pure function of the stack and
bindings; `Except.error` models `ConditionError` with its message. -/
def evaluateCondition (condition : String) (stack : List String)
    (bindings : List (String × String)) : Except String Bool :=
  let c := pyStrip condition
  if "depth".data.isPrefixOf c.data then
    let parts := splitWs c
    if parts.length != 3 then
      .error ("Invalid condition: " ++ c)
    else
      match pyInt (parts.getD 2 "") with
      | none => .error ("Invalid numeric value in condition: " ++ c)
      | some value =>
        let operator := parts.getD 1 ""
        let depth : Int := stack.length
        if operator == "<" then .ok (depth < value)
        else if operator == ">" then .ok (depth > value)
        else if operator == "==" then .ok (depth == value)
        else .error ("Invalid operator in condition: " ++ operator)
  else if "bound".data.isPrefixOf c.data then
    .ok (dictHas bindings ((splitWs c).getD 1 ""))
  else if "unbound".data.isPrefixOf c.data then
    .ok (!dictHas bindings ((splitWs c).getD 1 ""))
  else
    .error ("Unknown condition type: " ++ c)

/-! ### Operator implementations (the non-recursive `op_*` methods) -/

/-- `op_push`: bound check, then append `str(value)`. -/
def opPush (cfg : VMConfig) (value : ArgValue) (s : VMState) :
    VMState × Option VMExc :=
  if s.stack.length ≥ cfg.max_stack_depth then
    (s, some (.stackOverflow ("Stack overflow (max depth: " ++
        toString cfg.max_stack_depth ++ ")")))
  else
    ({s with stack := s.stack ++ [pyStr value]}, none)

/-- `op_invert`: reverse the stack. -/
def opInvert (s : VMState) : VMState × Option VMExc :=
  ({s with stack := s.stack.reverse}, none)

/-- `op_bind`: bound check on the current size, then insert/overwrite. -/
def opBind (cfg : VMConfig) (key value : ArgValue) (s : VMState) :
    VMState × Option VMExc :=
  if s.bindings.length ≥ cfg.max_bindings then
    (s, some (.bindingsOverflow ("Bindings overflow (max: " ++
        toString cfg.max_bindings ++ ")")))
  else
    ({s with bindings := dictSet s.bindings (pyStr key) (pyStr value)}, none)

/-- `op_release`: remove the key if present. -/
def opRelease (key : ArgValue) (s : VMState) : VMState × Option VMExc :=
  ({s with bindings := dictDel s.bindings (pyStr key)}, none)

/-- `op_gate`: evaluate the condition; `False` raises `BreakBlock`, a
non-string argument raises an `AttributeError` (`pyErr`). -/
def opGate (condition : ArgValue) (s : VMState) : VMState × Option VMExc :=
  match condition with
  | .str c =>
    match evaluateCondition c s.stack s.bindings with
    | .ok true => (s, none)
    | .ok false => (s, some .breakBlock)
    | .error m => (s, some (.condErr m))
  | _ => (s, some .pyErr)

/-- `op_witness`: append a checkpoint when tracing is enabled. -/
def opWitness (cfg : VMConfig) (s : VMState) : VMState × Option VMExc :=
  if cfg.trace_enabled then
    ({s with trace := s.trace ++
        [⟨s.current_phase_name, s.operation_counter, s.stack, s.bindings⟩]},
     none)
  else (s, none)

/-- `op_halt`: set the flag and raise `HaltProgram`. -/
def opHalt (s : VMState) : VMState × Option VMExc :=
  ({s with halted := true}, some .haltProgram)

/-! ### The recursive core: `execute_operation` / `op_saturate` -/

/-- The three recursive entry points of the VM core: dispatching one
operation, executing a SATURATE block's operation list (no halt check, as
in `op_saturate`), and the SATURATE `while` loop with its remaining
iteration budget. -/
inductive RunCall where
  | op (o : Operation)
  | blockOps (ops : List Operation)
  | sat (ops : List Operation) (iter : Nat)

/-- `execute_operation`, the block loop of `op_saturate`, and the SATURATE
fixed-point loop, as one fuel-indexed function.  The returned `Nat` is the
number of completed block executions when the call is a `.sat` loop (`0`
for the other call kinds); the fuel bounds only the call depth.  The
`.sat` case with a zero iteration budget mirrors Python's
`while iteration < max: ...` falling through to the
`if iteration >= max: raise CycleLimitError` check. -/
def run (cfg : VMConfig) : Nat → RunCall → VMState →
    (VMState × Option VMExc) × Nat
  | 0, _, s => ((s, some .fuelOut), 0)
  | fuel + 1, .op (.mk operator args _line), s =>
    if s.operation_counter ≥ cfg.max_operations then
      ((s, some (.opLimit ("Operation limit exceeded (" ++
          toString cfg.max_operations ++ ")"))), 0)
    else
      let s1 := {s with operation_counter := s.operation_counter + 1}
      if operator == "PUSH" then
        match args with
        | a :: _ => (opPush cfg a.value s1, 0)
        | [] => ((s1, some .pyErr), 0)
      else if operator == "INVERT" then
        (opInvert s1, 0)
      else if operator == "BIND" then
        match args with
        | a :: b :: _ => (opBind cfg a.value b.value s1, 0)
        | _ => ((s1, some .pyErr), 0)
      else if operator == "RELEASE" then
        match args with
        | a :: _ => (opRelease a.value s1, 0)
        | [] => ((s1, some .pyErr), 0)
      else if operator == "GATE" then
        match args with
        | a :: _ => (opGate a.value s1, 0)
        | [] => ((s1, some .pyErr), 0)
      else if operator == "SATURATE" then
        match args with
        | a :: _ =>
          match a.value with
          | .block ops =>
            ((run cfg fuel (.sat ops cfg.max_saturate_iterations) s1).1, 0)
          | _ => ((s1, some .pyErr), 0)
        | [] => ((s1, some .pyErr), 0)
      else if operator == "WITNESS" then
        (opWitness cfg s1, 0)
      else if operator == "HALT" then
        (opHalt s1, 0)
      else
        -- unknown operator: the dispatch if-chain has no else branch
        ((s1, none), 0)
  | fuel + 1, .blockOps ops, s =>
    match ops with
    | [] => ((s, none), 0)
    | o :: rest =>
      match (run cfg fuel (.op o) s).1 with
      | (s1, none) => ((run cfg fuel (.blockOps rest) s1).1, 0)
      | (s1, some e) => ((s1, some e), 0)
  | fuel + 1, .sat ops iter, s =>
    match iter with
    | 0 =>
      ((s, some (.cycleLimit ("SATURATE exceeded " ++
          toString cfg.max_saturate_iterations ++ " iterations"))), 0)
    | it + 1 =>
      match (run cfg fuel (.blockOps ops) s).1 with
      | (s1, some .breakBlock) => ((s1, none), 1)
      | (s1, some e) => ((s1, some e), 1)
      | (s1, none) =>
        if statesEqual (s.stack, s.bindings) (s1.stack, s1.bindings) then
          ((s1, none), 1)
        else
          ((run cfg fuel (.sat ops it) s1).1,
           (run cfg fuel (.sat ops it) s1).2 + 1)

/-- `execute_phase`: run a phase's operations in order, stopping if halted
or on an exception. -/
def execPhaseOps (cfg : VMConfig) (fuel : Nat) :
    List Operation → VMState → VMState × Option VMExc
  | [], s => (s, none)
  | o :: rest, s =>
    if s.halted then (s, none)
    else
      match (run cfg fuel (.op o) s).1 with
      | (s1, none) => execPhaseOps cfg fuel rest s1
      | (s1, some e) => (s1, some e)

/-- The phase loop of `execute`: per phase, check `halted`, set the phase
name, bump the phase counter, then run the phase. -/
def execPhases (cfg : VMConfig) (fuel : Nat) :
    List Phase → VMState → VMState × Option VMExc
  | [], s => (s, none)
  | ph :: rest, s =>
    if s.halted then (s, none)
    else
      let s1 := {s with current_phase_name := some ph.name,
                        phase_counter := s.phase_counter + 1}
      match execPhaseOps cfg fuel ph.operations s1 with
      | (s2, none) => execPhases cfg fuel rest s2
      | (s2, some e) => (s2, some e)

/-- Build the `ExecutionResult` returned at the end of `execute`. -/
def mkResult (cfg : VMConfig) (s : VMState) (status : String)
    (errMsg : Option String) : ExecutionResult :=
  ⟨status, s.phase_counter, s.operation_counter,
   ⟨s.stack, s.bindings, s.stack.length, s.bindings.length⟩,
   if cfg.trace_enabled then s.trace else [],
   errMsg⟩

/-- `VirtualMachine.execute`: reset, run all phases, and translate the
caught exception (if any) into a status; `BreakBlock` and dynamic type
errors are not caught and escape as `Except.error`. -/
def executeProgram (cfg : VMConfig) (fuel : Nat) (p : Program) :
    Except VMExc ExecutionResult :=
  match execPhases cfg fuel p.phases initState with
  | (s, none) =>
    .ok (mkResult cfg s (if s.halted then "HALTED" else "COMPLETE") none)
  | (s, some e) =>
    match e with
    | .haltProgram => .ok (mkResult cfg s "HALTED" none)
    | .stackOverflow m => .ok (mkResult cfg s "ERR_STACK_OVERFLOW" (some m))
    | .bindingsOverflow m =>
      .ok (mkResult cfg s "ERR_BINDINGS_OVERFLOW" (some m))
    | .cycleLimit m => .ok (mkResult cfg s "TERM_CYCLE_LIMIT" (some m))
    | .opLimit m => .ok (mkResult cfg s "TERM_OP_LIMIT" (some m))
    | .condErr m => .ok (mkResult cfg s "ERR_CONDITION" (some m))
    | .breakBlock => .error .breakBlock
    | .pyErr => .error .pyErr
    | .fuelOut => .error .fuelOut

/-- The parse-then-execute composition performed by the `run` verb of
`liminal.py` (`parse_program` followed by `VirtualMachine.execute`);
`none` when parsing fails. -/
def runSource (cfg : VMConfig) (fuel : Nat) (source : String) :
    Option (Except VMExc ExecutionResult) :=
  match parseProgram source with
  | .ok p => some (executeProgram cfg fuel p)
  | .error _ => none

/-- The default `VMConfig()`. -/
def defaultCfg : VMConfig := {}

set_option maxRecDepth 100000
set_option maxHeartbeats 1000000

/-! ## Library of small facts about the `dict` model -/

/-- Overwriting an existing key stores the new value at that key. -/
theorem dictGet_overwrite (m : List (String × String)) (k v : String)
    (h : dictHas m k = true) :
    dictGet (m.map fun p => if p.1 == k then (k, v) else p) k = some v := by
  induction m with
  | nil => simp [dictHas] at h
  | cons p t ih =>
    by_cases hp : p.1 == k
    · simp [dictGet, List.find?, hp]
    · have ht : dictHas t k = true := by
        simpa [dictHas, hp] using h
      simp only [List.map_cons, if_neg hp]
      simp only [dictGet, List.find?, hp]
      exact ih ht

/-- Appending a fresh key stores the value at that key. -/
theorem dictGet_append_fresh (m : List (String × String)) (k v : String)
    (h : dictHas m k = false) : dictGet (m ++ [(k, v)]) k = some v := by
  induction m with
  | nil => simp [dictGet, List.find?]
  | cons p t ih =>
    have hp : (p.1 == k) = false := by
      by_contra hc
      simp [dictHas, eq_true_of_ne_false hc] at h
    have ht : dictHas t k = false := by
      simpa [dictHas, hp] using h
    simp only [List.cons_append, dictGet, List.find?, hp]
    exact ih ht

/-- `dictSet` stores the value at the key. -/
theorem dictGet_dictSet (m : List (String × String)) (k v : String) :
    dictGet (dictSet m k v) k = some v := by
  unfold dictSet
  by_cases h : dictHas m k
  · rw [if_pos h]; exact dictGet_overwrite m k v h
  · rw [if_neg h]
    exact dictGet_append_fresh m k v (by simpa using h)

/-- Overwriting an existing key keeps the entry count. -/
theorem dictSet_length_of_has (m : List (String × String)) (k v : String)
    (h : dictHas m k = true) : (dictSet m k v).length = m.length := by
  simp [dictSet, h]

/-- Inserting a fresh key grows the entry count by one. -/
theorem dictSet_length_of_fresh (m : List (String × String)) (k v : String)
    (h : dictHas m k = false) : (dictSet m k v).length = m.length + 1 := by
  simp [dictSet, h]

/-- `dictSet` grows the entry count by at most one. -/
theorem dictSet_length_le (m : List (String × String)) (k v : String) :
    (dictSet m k v).length ≤ m.length + 1 := by
  unfold dictSet
  by_cases h : dictHas m k <;> simp [h]

/-- `dictDel` never grows the entry count. -/
theorem dictDel_length_le (m : List (String × String)) (k : String) :
    (dictDel m k).length ≤ m.length :=
  List.length_filter_le _ m

/-- After `dictSet` the key is present. -/
theorem dictHas_dictSet (m : List (String × String)) (k v : String) :
    dictHas (dictSet m k v) k = true := by
  unfold dictSet
  by_cases h : dictHas m k
  · rw [if_pos h]
    induction m with
    | nil => simp [dictHas] at h
    | cons p t ih =>
      by_cases hp : (p.1 == k) = true
      · simp only [dictHas, List.map_cons, List.any_cons, if_pos hp]
        simp
      · have hpb : (p.1 == k) = false := by
          simpa using hp
        have ht : dictHas t k = true := by
          simpa [dictHas, hpb] using h
        have ih' := ih ht
        simp only [dictHas] at ih'
        simp only [dictHas, List.map_cons, List.any_cons, hpb,
          Bool.false_eq_true, if_false, Bool.false_or]
        simpa [hpb] using ih'
  · rw [if_neg h]
    simp [dictHas]

/-! ## C1 -/

/-- C1: the source `T { SATURATE { PUSH "x" GATE depth < 5 } HALT }` does
NOT parse: `parse_argument` consumes only the IDENT `depth` as the GATE
argument, so the following SYMBOL `<` is met where the operation loop
expects a KEYWORD, and parsing fails with a `ParseError` — the program
never reaches execution, contrary to the claimed `HALTED` run with five
pushes. -/
theorem c1_saturate_gate_program_parse_error :
    parseProgram "T \x7b SATURATE \x7b PUSH \"x\" GATE depth < 5 \x7d HALT \x7d" =
      .error ⟨"Expected KEYWORD, got SYMBOL " ++ sq ++ "<" ++ sq, some 1⟩ := by
  rfl

/-! ## C2 -/

/-- C2: a GATE at the top level of a phase whose condition evaluates to
false does NOT merely truncate the phase: the `BreakBlock` exception is
caught only inside `op_saturate`, and `execute` does not catch it either,
so it escapes `execute` as an uncaught exception and no `ExecutionResult`
(and in particular no later phase and no `COMPLETE`/`HALTED` status) is
produced. -/
theorem c2_breakblock_escapes_execute :
    runSource defaultCfg 100
        "T \x7b GATE \"depth > 0\" PUSH \"a\" \x7d U \x7b PUSH \"b\" \x7d" =
      some (.error .breakBlock) := by
  rfl

/-! ## C3 -/

/-- C3 counterexample: with `max_bindings = 1`, the program
`T { BIND "k" "a" BIND "k" "b" }` fails with `ERR_BINDINGS_OVERFLOW` on
the second (overwriting) BIND, because `op_bind` checks
`len(bindings) >= max_bindings` before looking at the key; the claim
instead asserts the overwrite succeeds regardless of capacity. -/
theorem c3_overwrite_at_capacity_fails :
    runSource { max_bindings := 1 } 100
        "T \x7b BIND \"k\" \"a\" BIND \"k\" \"b\" \x7d" =
      some (.ok ⟨"ERR_BINDINGS_OVERFLOW", 1, 2, ⟨[], [("k", "a")], 0, 1⟩, [],
        some "Bindings overflow (max: 1)"⟩) := by
  rfl

/-- A `BIND` operation with two string-literal arguments, as the parser
produces for `BIND "k" "v"`. -/
def bindOp (k v : String) : Operation :=
  .mk "BIND" [.mk "LITERAL" (.str k), .mk "LITERAL" (.str v)] 0

/-- Dispatching a `BIND` under the operation budget reduces to `op_bind`
on the state with the bumped operation counter. -/
theorem run_bind_eq (cfg : VMConfig) (fuel : Nat) (k v : String) (s : VMState)
    (h : s.operation_counter < cfg.max_operations) :
    (run cfg (fuel + 1) (.op (bindOp k v)) s).1 =
      opBind cfg (.str k) (.str v)
        {s with operation_counter := s.operation_counter + 1} := by
  show (run cfg (fuel + 1)
      (.op (.mk "BIND" [.mk "LITERAL" (.str k), .mk "LITERAL" (.str v)] 0)) s).1 = _
  simp only [run]
  rw [if_neg (by omega : ¬ s.operation_counter ≥ cfg.max_operations)]
  rfl

/-- C3 amended: overwriting `BIND k v` succeeds (replacing the value and
keeping the count) only when the bindings currently hold fewer than
`max_bindings` entries; and the sequence `BIND k v1; BIND k v2` run from a
non-halted state with `k` unbound, at most `max_bindings - 2` current
entries and at least two operations left in the budget, ends without
exception with `bindings[k] = v2` and a binding count exactly one greater
than the pre-state's. -/
theorem c3_bind_overwrite_amended :
    (∀ (cfg : VMConfig) (s : VMState) (k v : String),
      dictHas s.bindings k = true →
      s.bindings.length < cfg.max_bindings →
      opBind cfg (.str k) (.str v) s =
        ({s with bindings := dictSet s.bindings k v}, none) ∧
      dictGet (dictSet s.bindings k v) k = some v ∧
      (dictSet s.bindings k v).length = s.bindings.length) ∧
    (∀ (cfg : VMConfig) (fuel : Nat) (s : VMState) (k v1 v2 : String),
      s.halted = false →
      dictHas s.bindings k = false →
      s.bindings.length + 1 < cfg.max_bindings →
      s.operation_counter + 1 < cfg.max_operations →
      (execPhaseOps cfg (fuel + 1) [bindOp k v1, bindOp k v2] s).2 = none ∧
      dictGet (execPhaseOps cfg (fuel + 1) [bindOp k v1, bindOp k v2] s).1.bindings
          k = some v2 ∧
      (execPhaseOps cfg (fuel + 1)
          [bindOp k v1, bindOp k v2] s).1.bindings.length =
        s.bindings.length + 1) := by
  constructor
  · intro cfg s k v hhas hlt
    refine ⟨?_, dictGet_dictSet _ _ _, dictSet_length_of_has _ _ _ hhas⟩
    unfold opBind
    rw [if_neg (by omega : ¬ s.bindings.length ≥ cfg.max_bindings)]
    rfl
  · intro cfg fuel s k v1 v2 hhalt hfresh hlen hops
    have h1 : s.operation_counter < cfg.max_operations := by omega
    have hstep1 : (run cfg (fuel + 1) (.op (bindOp k v1)) s).1 =
        ({s with operation_counter := s.operation_counter + 1,
                 bindings := dictSet s.bindings k v1}, none) := by
      rw [run_bind_eq cfg fuel k v1 s h1]
      unfold opBind
      rw [if_neg (by omega : ¬ s.bindings.length ≥ cfg.max_bindings)]
      rfl
    have hmidlen : (dictSet s.bindings k v1).length = s.bindings.length + 1 :=
      dictSet_length_of_fresh _ _ _ hfresh
    have hstep2 : (run cfg (fuel + 1)
        (.op (bindOp k v2))
        ({s with operation_counter := s.operation_counter + 1,
                 bindings := dictSet s.bindings k v1})).1 =
        ({s with operation_counter := s.operation_counter + 2,
                 bindings := dictSet (dictSet s.bindings k v1) k v2}, none) := by
      rw [run_bind_eq cfg fuel k v2 _ (by simpa using hops)]
      unfold opBind
      rw [if_neg (by simp only [hmidlen]; omega)]
      rfl
    have hres : execPhaseOps cfg (fuel + 1) [bindOp k v1, bindOp k v2] s =
        ({s with operation_counter := s.operation_counter + 2,
                 bindings := dictSet (dictSet s.bindings k v1) k v2}, none) := by
      rw [hhalt] at hstep1 hstep2
      simp only [execPhaseOps, hhalt, Bool.false_eq_true, if_false, hstep1,
        hstep2]
    refine ⟨by rw [hres], ?_, ?_⟩
    · rw [hres]
      exact dictGet_dictSet _ _ _
    · rw [hres]
      simp only []
      rw [dictSet_length_of_has _ _ _ (dictHas_dictSet _ _ _), hmidlen]

/-- C3 witness: the amended overwrite law applied at a concrete state and
configuration. -/
theorem c3_bind_overwrite_amended_witness :
    (execPhaseOps defaultCfg 5 [bindOp "k" "a", bindOp "k" "b"]
        initState).2 = none ∧
    dictGet (execPhaseOps defaultCfg 5 [bindOp "k" "a", bindOp "k" "b"]
        initState).1.bindings "k" = some "b" :=
  ⟨(c3_bind_overwrite_amended.2 defaultCfg 4 initState "k" "a" "b"
      rfl rfl (by decide) (by decide)).1,
   (c3_bind_overwrite_amended.2 defaultCfg 4 initState "k" "a" "b"
      rfl rfl (by decide) (by decide)).2.1⟩

/-! ## C4 -/

/-- Tokenizing an empty remainder returns the accumulated tokens at any
fuel. -/
theorem tokenizeAux_nil (f line : Nat) (acc : List Token) :
    tokenizeAux f line [] acc = acc.reverse := by
  cases f <;> rfl

/-- A trailing character rejected by the predicate does not change a
`takeWhile` munch. -/
theorem takeWhile_append_neg (p : Char → Bool) (c : Char) (hc : p c = false) :
    ∀ l : List Char, (l ++ [c]).takeWhile p = l.takeWhile p := by
  intro l
  induction l with
  | nil => simp [List.takeWhile, hc]
  | cons a t ih =>
    by_cases ha : p a = true
    · simp [List.takeWhile_cons, ha, ih]
    · have ha' : p a = false := by simpa using ha
      simp [List.takeWhile_cons, ha']

/-- A trailing character rejected by the predicate survives a `dropWhile`. -/
theorem dropWhile_append_neg (p : Char → Bool) (c : Char) (hc : p c = false) :
    ∀ l : List Char, (l ++ [c]).dropWhile p = l.dropWhile p ++ [c] := by
  intro l
  induction l with
  | nil => simp [List.dropWhile, hc]
  | cons a t ih =>
    by_cases ha : p a = true
    · simp [List.dropWhile_cons, ha, ih]
    · have ha' : p a = false := by simpa using ha
      simp [List.dropWhile_cons, ha']

/-- A trailing character accepted by the predicate is also dropped when
everything before it is dropped. -/
theorem dropWhile_append_pos_nil (p : Char → Bool) (c : Char)
    (hc : p c = true) :
    ∀ l : List Char, l.dropWhile p = [] → (l ++ [c]).dropWhile p = [] := by
  intro l
  induction l with
  | nil => intro _; simp [List.dropWhile, hc]
  | cons a t ih =>
    intro h
    by_cases ha : p a = true
    · simp only [List.dropWhile_cons, ha, if_true] at h
      simpa [List.cons_append, List.dropWhile_cons, ha] using ih h
    · have ha' : p a = false := by simpa using ha
      simp [List.dropWhile_cons, ha'] at h

/-- A trailing accepted character does not affect a `dropWhile` that stops
earlier. -/
theorem dropWhile_append_pos_cons (p : Char → Bool) (c : Char)
    (_hc : p c = true) :
    ∀ (l : List Char) (q : Char) (rest : List Char),
      l.dropWhile p = q :: rest →
      (l ++ [c]).dropWhile p = q :: (rest ++ [c]) := by
  intro l
  induction l with
  | nil => intro q rest h; simp [List.dropWhile] at h
  | cons a t ih =>
    intro q rest h
    by_cases ha : p a = true
    · simp only [List.dropWhile_cons, ha, if_true] at h
      simpa [List.cons_append, List.dropWhile_cons, ha] using ih q rest h
    · have ha' : p a = false := by simpa using ha
      simp only [List.dropWhile_cons, ha', Bool.false_eq_true, if_false] at h
      obtain ⟨h1, h2⟩ := List.cons_eq_cons.mp h
      subst h1
      subst h2
      simp [List.cons_append, List.dropWhile_cons, ha']

/-- With everything dropped, a trailing accepted character is also taken. -/
theorem takeWhile_append_pos_nil (p : Char → Bool) (c : Char)
    (hc : p c = true) :
    ∀ l : List Char, l.dropWhile p = [] →
      (l ++ [c]).takeWhile p = l ++ [c] := by
  intro l
  induction l with
  | nil => intro _; simp [List.takeWhile, hc]
  | cons a t ih =>
    intro h
    by_cases ha : p a = true
    · simp only [List.dropWhile_cons, ha, if_true] at h
      simpa [List.cons_append, List.takeWhile_cons, ha] using ih h
    · have ha' : p a = false := by simpa using ha
      simp [List.dropWhile_cons, ha'] at h

/-- A trailing accepted character does not affect a `takeWhile` that stops
earlier. -/
theorem takeWhile_append_pos_cons (p : Char → Bool) (c : Char)
    (_hc : p c = true) :
    ∀ (l : List Char) (q : Char) (rest : List Char),
      l.dropWhile p = q :: rest →
      (l ++ [c]).takeWhile p = l.takeWhile p := by
  intro l
  induction l with
  | nil => intro q rest h; simp [List.dropWhile] at h
  | cons a t ih =>
    intro q rest h
    by_cases ha : p a = true
    · simp only [List.dropWhile_cons, ha, if_true] at h
      simp [List.cons_append, List.takeWhile_cons, ha, ih q rest h]
    · have ha' : p a = false := by simpa using ha
      simp [List.cons_append, List.takeWhile_cons, ha']

/-- `dropWhile` never lengthens a list. -/
theorem dropWhile_length_le (p : Char → Bool) (l : List Char) :
    (l.dropWhile p).length ≤ l.length := by
  induction l with
  | nil => simp [List.dropWhile]
  | cons a t ih =>
    by_cases ha : p a = true
    · simp only [List.dropWhile_cons, ha, if_true, List.length_cons]
      omega
    · have ha' : p a = false := by simpa using ha
      simp [List.dropWhile_cons, ha']

/-- Appending a byte that matches no tokenizer rule to a source leaves the
token stream unchanged (at any sufficient fuel). -/
theorem tokenizeAux_append_unmatched (c : Char)
    (h1 : (c == '#') = false) (h2 : (c == lbraceCh) = false)
    (h3 : (c == rbraceCh) = false) (h4 : (c == '"') = false)
    (h5 : c.isDigit = false) (h6 : isKwStart c = false)
    (h7 : isIdStart c = false) (h8 : isSymCh c = false)
    (h9 : isWsCh c = false) :
    ∀ (fuel : Nat) (cs : List Char) (line : Nat) (acc : List Token),
      cs.length + 2 ≤ fuel →
      tokenizeAux fuel line (cs ++ [c]) acc = tokenizeAux fuel line cs acc := by
  have hupf : c.isUpper = false := by
    by_cases hu : c.isUpper = true
    · exfalso; rw [isKwStart] at h6; simp [hu] at h6
    · simpa using hu
  have hund : (c == '_') = false := by
    by_cases hu : c = '_'
    · exfalso; subst hu; simp [isKwStart] at h6
    · simpa using hu
  have hlowf : c.isLower = false := h7
  have hkwc : isKwCont c = false := by simp [isKwCont, hupf, hund, h5]
  have hidc : isIdCont c = false := by simp [isIdCont, hlowf, hund, h5]
  have hcnl : (c == '\n') = false := by
    by_cases hc : c = '\n'
    · exfalso; subst hc; simp [isWsCh] at h9
    · simpa using hc
  have hnl : (!(c == '\n')) = true := by simp [hcnl]
  have hnq : (!(c == '"')) = true := by simp [h4]
  intro fuel
  induction fuel with
  | zero => intro cs line acc h; omega
  | succ f ih =>
    intro cs line acc hlen
    cases cs with
    | nil =>
      show tokenizeAux (f + 1) line ([] ++ [c]) acc =
        tokenizeAux (f + 1) line [] acc
      simp only [List.nil_append, tokenizeAux, h1, h2, h3, h4, h5, h6, h7,
        h8, h9, Bool.false_eq_true, if_false]
      exact tokenizeAux_nil f line acc
    | cons a t =>
      have hlt : t.length + 2 ≤ f := by
        simp only [List.length_cons] at hlen; omega
      simp only [List.cons_append, tokenizeAux, List.append_eq]
      by_cases ha1 : (a == '#') = true
      · rw [if_pos ha1, if_pos ha1]
        rcases hdw : t.dropWhile (fun ch => !(ch == '\n')) with _ | ⟨q, rest⟩
        · rw [dropWhile_append_pos_nil _ c hnl t hdw]
        · rw [dropWhile_append_pos_cons _ c hnl t q rest hdw]
          have hql : (q :: rest).length ≤ t.length := by
            rw [← hdw]; exact dropWhile_length_le _ t
          simpa using ih (q :: rest) (line + 1) acc
            (by simp only [List.length_cons] at hql ⊢; omega)
      rw [if_neg ha1, if_neg ha1]
      by_cases ha2 : (a == lbraceCh) = true
      · rw [if_pos ha2, if_pos ha2]
        exact ih t line _ hlt
      rw [if_neg ha2, if_neg ha2]
      by_cases ha3 : (a == rbraceCh) = true
      · rw [if_pos ha3, if_pos ha3]
        exact ih t line _ hlt
      rw [if_neg ha3, if_neg ha3]
      by_cases ha4 : (a == '"') = true
      · rw [if_pos ha4, if_pos ha4]
        rcases hdw : t.dropWhile (fun ch => !(ch == '"')) with _ | ⟨q, rest⟩
        · rw [dropWhile_append_pos_nil _ c hnq t hdw]
          exact ih t line acc hlt
        · rw [dropWhile_append_pos_cons _ c hnq t q rest hdw,
            takeWhile_append_pos_cons _ c hnq t q rest hdw]
          have hql : (q :: rest).length ≤ t.length := by
            rw [← hdw]; exact dropWhile_length_le _ t
          exact ih rest line _
            (by simp only [List.length_cons] at hql; omega)
      rw [if_neg ha4, if_neg ha4]
      by_cases ha5 : a.isDigit = true
      · rw [if_pos ha5, if_pos ha5, takeWhile_append_neg _ c h5 t,
          dropWhile_append_neg _ c h5 t]
        exact ih (t.dropWhile Char.isDigit) line _
          (by have := dropWhile_length_le Char.isDigit t; omega)
      rw [if_neg ha5, if_neg ha5]
      by_cases ha6 : isKwStart a = true
      · rw [if_pos ha6, if_pos ha6, takeWhile_append_neg _ c hkwc t,
          dropWhile_append_neg _ c hkwc t]
        exact ih (t.dropWhile isKwCont) line _
          (by have := dropWhile_length_le isKwCont t; omega)
      rw [if_neg ha6, if_neg ha6]
      by_cases ha7 : isIdStart a = true
      · rw [if_pos ha7, if_pos ha7, takeWhile_append_neg _ c hidc t,
          dropWhile_append_neg _ c hidc t]
        exact ih (t.dropWhile isIdCont) line _
          (by have := dropWhile_length_le isIdCont t; omega)
      rw [if_neg ha7, if_neg ha7]
      by_cases ha8 : isSymCh a = true
      · rw [if_pos ha8, if_pos ha8, takeWhile_append_neg _ c h8 t,
          dropWhile_append_neg _ c h8 t]
        exact ih (t.dropWhile isSymCh) line _
          (by have := dropWhile_length_le isSymCh t; omega)
      rw [if_neg ha8, if_neg ha8]
      by_cases ha9 : isWsCh a = true
      · rw [if_pos ha9, if_pos ha9, takeWhile_append_neg _ c h9 t,
          dropWhile_append_neg _ c h9 t]
        exact ih (t.dropWhile isWsCh) _ _
          (by have := dropWhile_length_le isWsCh t; omega)
      rw [if_neg ha9, if_neg ha9]
      exact ih t line acc hlt

/-- C4 counterexample: the source `@ T { HALT }` contains the byte `@`,
which matches no tokenizer rule, yet parsing succeeds — no `ParseError`
is raised, contrary to the claim. -/
theorem c4_unmatched_byte_parses :
    (parseProgram "@ T \x7b HALT \x7d").isOk = true := by
  rfl

/-- C4 amended: a byte that matches no tokenizer rule is silently skipped
by `re.finditer` rather than failing the parse: appending such a byte
(e.g. `@`) to any character stream leaves the token stream unchanged, and
concretely `@ T { HALT }` parses to exactly the same program as
`T { HALT }`. -/
theorem c4_unmatched_byte_skipped_amended :
    (∀ (fuel : Nat) (cs : List Char) (line : Nat) (acc : List Token),
      cs.length + 2 ≤ fuel →
      tokenizeAux fuel line (cs ++ ['@']) acc =
        tokenizeAux fuel line cs acc) ∧
    parseProgram "@ T \x7b HALT \x7d" = parseProgram "T \x7b HALT \x7d" ∧
    (parseProgram "T \x7b HALT \x7d").isOk = true :=
  ⟨tokenizeAux_append_unmatched ('@') rfl rfl rfl rfl rfl rfl rfl
      rfl rfl,
   by
    have ht : tokenize "@ T \x7b HALT \x7d" = tokenize "T \x7b HALT \x7d" := by
      decide
    simp only [parseProgram]
    rw [ht],
   by rfl⟩

/-- C4 witness: the amended skipping law applied to the concrete stream
`PUSH` followed by `@`. -/
theorem c4_unmatched_byte_skipped_amended_witness :
    tokenizeAux 10 1 ("PUSH".data ++ ['@']) [] =
      tokenizeAux 10 1 "PUSH".data [] :=
  c4_unmatched_byte_skipped_amended.1 10 "PUSH".data 1 [] (by decide)

/-! ## C5 -/

/-- The budget invariant of §3 of the spec: the operation counter and the
sizes of stack and bindings stay within the configured bounds. -/
def BudgetInv (cfg : VMConfig) (s : VMState) : Prop :=
  s.operation_counter ≤ cfg.max_operations ∧
  s.stack.length ≤ cfg.max_stack_depth ∧
  s.bindings.length ≤ cfg.max_bindings

/-- `op_push` preserves the budget invariant. -/
theorem opPush_budget (cfg : VMConfig) (v : ArgValue) (s : VMState)
    (h : BudgetInv cfg s) : BudgetInv cfg (opPush cfg v s).1 := by
  unfold opPush
  by_cases hc : s.stack.length ≥ cfg.max_stack_depth
  · rw [if_pos hc]; exact h
  · rw [if_neg hc]
    exact ⟨h.1, by simp only [List.length_append, List.length_cons,
      List.length_nil]; omega, h.2.2⟩

/-- `op_invert` preserves the budget invariant. -/
theorem opInvert_budget (cfg : VMConfig) (s : VMState)
    (h : BudgetInv cfg s) : BudgetInv cfg (opInvert s).1 :=
  ⟨h.1,
   by
    show s.stack.reverse.length ≤ cfg.max_stack_depth
    simpa using h.2.1,
   h.2.2⟩

/-- `op_bind` preserves the budget invariant. -/
theorem opBind_budget (cfg : VMConfig) (k v : ArgValue) (s : VMState)
    (h : BudgetInv cfg s) : BudgetInv cfg (opBind cfg k v s).1 := by
  unfold opBind
  by_cases hc : s.bindings.length ≥ cfg.max_bindings
  · rw [if_pos hc]; exact h
  · rw [if_neg hc]
    refine ⟨h.1, h.2.1, ?_⟩
    show (dictSet s.bindings (pyStr k) (pyStr v)).length ≤ cfg.max_bindings
    have := dictSet_length_le s.bindings (pyStr k) (pyStr v)
    omega

/-- `op_release` preserves the budget invariant. -/
theorem opRelease_budget (cfg : VMConfig) (k : ArgValue) (s : VMState)
    (h : BudgetInv cfg s) : BudgetInv cfg (opRelease k s).1 := by
  refine ⟨h.1, h.2.1, ?_⟩
  show (dictDel s.bindings (pyStr k)).length ≤ cfg.max_bindings
  have h1 := dictDel_length_le s.bindings (pyStr k)
  have h2 := h.2.2
  omega

/-- `op_gate` never mutates the state. -/
theorem opGate_state (v : ArgValue) (s : VMState) : (opGate v s).1 = s := by
  cases v with
  | str c =>
    unfold opGate
    cases hc : evaluateCondition c s.stack s.bindings with
    | ok b =>
      cases b with
      | true => simp [hc]
      | false => simp [hc]
    | error m => simp [hc]
  | int i => rfl
  | block ops => rfl

/-- `op_gate` preserves the budget invariant (it never mutates state). -/
theorem opGate_budget (cfg : VMConfig) (v : ArgValue) (s : VMState)
    (h : BudgetInv cfg s) : BudgetInv cfg (opGate v s).1 := by
  rw [opGate_state]; exact h

/-- `op_witness` preserves the budget invariant. -/
theorem opWitness_budget (cfg : VMConfig) (s : VMState)
    (h : BudgetInv cfg s) : BudgetInv cfg (opWitness cfg s).1 := by
  unfold opWitness
  by_cases hc : cfg.trace_enabled = true
  · rw [if_pos hc]; exact h
  · rw [if_neg hc]; exact h

/-- `op_halt` preserves the budget invariant. -/
theorem opHalt_budget (cfg : VMConfig) (s : VMState)
    (h : BudgetInv cfg s) : BudgetInv cfg (opHalt s).1 := h

/-- Every call into the recursive VM core preserves the budget invariant,
because each mutating operator checks its bound before mutating. -/
theorem run_budget (cfg : VMConfig) :
    ∀ (fuel : Nat) (call : RunCall) (s : VMState),
      BudgetInv cfg s → BudgetInv cfg (run cfg fuel call s).1.1 := by
  intro fuel
  induction fuel with
  | zero => intro call s h; exact h
  | succ f ih =>
    intro call s h
    cases call with
    | op o =>
      obtain ⟨operator, args, line⟩ := o
      simp only [run]
      by_cases hlim : s.operation_counter ≥ cfg.max_operations
      · rw [if_pos hlim]; exact h
      rw [if_neg hlim]
      have h1 : BudgetInv cfg {s with operation_counter :=
          s.operation_counter + 1} :=
        ⟨by simp only []; omega, h.2.1, h.2.2⟩
      by_cases hP : (operator == "PUSH") = true
      · rw [if_pos hP]
        cases args with
        | nil => exact h1
        | cons a rest => exact opPush_budget cfg a.value _ h1
      rw [if_neg hP]
      by_cases hI : (operator == "INVERT") = true
      · rw [if_pos hI]; exact opInvert_budget cfg _ h1
      rw [if_neg hI]
      by_cases hB : (operator == "BIND") = true
      · rw [if_pos hB]
        cases args with
        | nil => exact h1
        | cons a rest =>
          cases rest with
          | nil => exact h1
          | cons b rest2 => exact opBind_budget cfg a.value b.value _ h1
      rw [if_neg hB]
      by_cases hR : (operator == "RELEASE") = true
      · rw [if_pos hR]
        cases args with
        | nil => exact h1
        | cons a rest => exact opRelease_budget cfg a.value _ h1
      rw [if_neg hR]
      by_cases hG : (operator == "GATE") = true
      · rw [if_pos hG]
        cases args with
        | nil => exact h1
        | cons a rest => exact opGate_budget cfg a.value _ h1
      rw [if_neg hG]
      by_cases hS : (operator == "SATURATE") = true
      · rw [if_pos hS]
        cases args with
        | nil => exact h1
        | cons a rest =>
          obtain ⟨ty, av⟩ := a
          cases av with
          | str c => exact h1
          | int i => exact h1
          | block ops =>
            exact ih (.sat ops cfg.max_saturate_iterations) _ h1
      rw [if_neg hS]
      by_cases hW : (operator == "WITNESS") = true
      · rw [if_pos hW]; exact opWitness_budget cfg _ h1
      rw [if_neg hW]
      by_cases hH : (operator == "HALT") = true
      · rw [if_pos hH]; exact opHalt_budget cfg _ h1
      rw [if_neg hH]
      exact h1
    | blockOps ops =>
      cases ops with
      | nil => exact h
      | cons o rest =>
        have hstep := ih (.op o) s h
        rcases hr : (run cfg f (.op o) s).1 with ⟨s1, e⟩
        rw [hr] at hstep
        simp only [run, hr]
        cases e with
        | none => exact ih (.blockOps rest) s1 hstep
        | some e' => exact hstep
    | sat ops iter =>
      cases iter with
      | zero => exact h
      | succ it =>
        have hstep := ih (.blockOps ops) s h
        rcases hr : (run cfg f (.blockOps ops) s).1 with ⟨s1, e⟩
        rw [hr] at hstep
        simp only [run, hr]
        cases e with
        | none =>
          dsimp only
          by_cases hfix :
              statesEqual (s.stack, s.bindings) (s1.stack, s1.bindings) = true
          · rw [if_pos hfix]; exact hstep
          · rw [if_neg hfix]; exact ih (.sat ops it) s1 hstep
        | some e' =>
          cases e' <;> exact hstep

/-- `execute_phase` preserves the budget invariant. -/
theorem execPhaseOps_budget (cfg : VMConfig) (fuel : Nat) :
    ∀ (ops : List Operation) (s : VMState),
      BudgetInv cfg s → BudgetInv cfg (execPhaseOps cfg fuel ops s).1 := by
  intro ops
  induction ops with
  | nil => intro s h; exact h
  | cons o rest ih =>
    intro s h
    simp only [execPhaseOps]
    by_cases hh : s.halted = true
    · rw [if_pos hh]; exact h
    rw [if_neg hh]
    have hstep := run_budget cfg fuel (.op o) s h
    rcases hr : (run cfg fuel (.op o) s).1 with ⟨s1, e⟩
    rw [hr] at hstep
    cases e with
    | none => exact ih s1 hstep
    | some e' => exact hstep

/-- The phase loop preserves the budget invariant. -/
theorem execPhases_budget (cfg : VMConfig) (fuel : Nat) :
    ∀ (phases : List Phase) (s : VMState),
      BudgetInv cfg s → BudgetInv cfg (execPhases cfg fuel phases s).1 := by
  intro phases
  induction phases with
  | nil => intro s h; exact h
  | cons ph rest ih =>
    intro s h
    simp only [execPhases]
    by_cases hh : s.halted = true
    · rw [if_pos hh]; exact h
    rw [if_neg hh]
    have h1 : BudgetInv cfg {s with current_phase_name := some ph.name, phase_counter := s.phase_counter + 1} := ⟨h.1, h.2.1, h.2.2⟩
    have hstep := execPhaseOps_budget cfg fuel ph.operations _ h1
    rcases hr : execPhaseOps cfg fuel ph.operations {s with current_phase_name := some ph.name, phase_counter := s.phase_counter + 1} with ⟨s1, e⟩
    rw [hr] at hstep
    cases e with
    | none => exact ih s1 hstep
    | some e' => exact hstep

/-- C5: whenever `execute` returns an `ExecutionResult` (any status), the
reported operation count, stack size and binding count are within the
configured bounds; each would-be violation is detected before the
violating mutation, so the bounds hold of the partial final state as
well. -/
theorem c5_budget_safety (cfg : VMConfig) (fuel : Nat) (p : Program)
    (r : ExecutionResult) (h : executeProgram cfg fuel p = .ok r) :
    r.operations_executed ≤ cfg.max_operations ∧
    r.final_state.stack.length ≤ cfg.max_stack_depth ∧
    r.final_state.bindings.length ≤ cfg.max_bindings := by
  have hinv : BudgetInv cfg initState :=
    ⟨Nat.zero_le _, Nat.zero_le _, Nat.zero_le _⟩
  have hx := execPhases_budget cfg fuel p.phases initState hinv
  unfold executeProgram at h
  rcases hr : execPhases cfg fuel p.phases initState with ⟨s, e⟩
  rw [hr] at h hx
  cases e with
  | none =>
    simp only [Except.ok.injEq] at h
    subst h
    exact ⟨hx.1, hx.2.1, hx.2.2⟩
  | some e' =>
    cases e' <;>
      first
        | (simp only [Except.ok.injEq] at h; subst h;
           exact ⟨hx.1, hx.2.1, hx.2.2⟩)
        | simp at h

/-- C5 witness: the bounds read off a concrete successful execution. -/
theorem c5_budget_safety_witness :
    (⟨"HALTED", 1, 1, ⟨[], [], 0, 0⟩, [], none⟩ :
        ExecutionResult).operations_executed ≤ defaultCfg.max_operations ∧
    (⟨"HALTED", 1, 1, ⟨[], [], 0, 0⟩, [], none⟩ :
        ExecutionResult).final_state.stack.length ≤
      defaultCfg.max_stack_depth ∧
    (⟨"HALTED", 1, 1, ⟨[], [], 0, 0⟩, [], none⟩ :
        ExecutionResult).final_state.bindings.length ≤
      defaultCfg.max_bindings :=
  c5_budget_safety defaultCfg 50 ⟨[⟨"T", [.mk "HALT" [] 1]⟩]⟩ _ (by rfl)

/-! ## C6 -/

/-- The SATURATE loop executes its block at most `iter` times: every pass
either ends the loop (break, fixed point, or exception) with one more
block execution, or recurses with one fewer remaining iteration. -/
theorem satCount_le (cfg : VMConfig) :
    ∀ (fuel : Nat) (ops : List Operation) (iter : Nat) (s : VMState),
      (run cfg fuel (.sat ops iter) s).2 ≤ iter := by
  intro fuel
  induction fuel with
  | zero => intro ops iter s; exact Nat.zero_le _
  | succ f ih =>
    intro ops iter s
    cases iter with
    | zero => exact Nat.zero_le _
    | succ it =>
      simp only [run]
      rcases hr : (run cfg f (.blockOps ops) s).1 with ⟨s1, e⟩
      cases e with
      | none =>
        dsimp only
        by_cases hfix :
            statesEqual (s.stack, s.bindings) (s1.stack, s1.bindings) = true
        · rw [if_pos hfix]; omega
        · rw [if_neg hfix]
          have := ih ops it s1
          omega
      | some e' => cases e' <;> (dsimp only; omega)

/-- The SATURATE loop absorbs the break-block signal: its outcome is never
`BreakBlock`. -/
theorem sat_no_breakBlock (cfg : VMConfig) :
    ∀ (fuel : Nat) (ops : List Operation) (iter : Nat) (s : VMState),
      (run cfg fuel (.sat ops iter) s).1.2 ≠ some .breakBlock := by
  intro fuel
  induction fuel with
  | zero => intro ops iter s; simp [run]
  | succ f ih =>
    intro ops iter s
    cases iter with
    | zero => simp [run]
    | succ it =>
      simp only [run]
      rcases hr : (run cfg f (.blockOps ops) s).1 with ⟨s1, e⟩
      cases e with
      | none =>
        dsimp only
        by_cases hfix :
            statesEqual (s.stack, s.bindings) (s1.stack, s1.bindings) = true
        · rw [if_pos hfix]; simp
        · rw [if_neg hfix]; exact ih ops it s1
      | some e' => cases e' <;> (dsimp only; simp)

/-- C6 counterexample: `T { SATURATE { GATE 5 } }` parses, and under the
default configuration (`max_saturate_iterations = 1000 ≥ 1`) its SATURATE
terminates in none of the claim's four ways: `op_gate` calls `.strip()` on
the integer `5`, the resulting `AttributeError` propagates through the
loop and out of `execute`, and the run ends with an escaping exception and
no status at all. -/
theorem c6_gate_int_escapes :
    runSource defaultCfg 100 "T \x7b SATURATE \x7b GATE 5 \x7d \x7d" =
      some (.error .pyErr) := by
  rfl

/-- C6 amended: a SATURATE executes its block at most
`max_saturate_iterations + 1` times and never re-raises the break-block
signal; it ends by fixed point, GATE break, `TERM_CYCLE_LIMIT`, a
run-time terminating status, or by propagating an exception raised inside
its block (such as a GATE applied to a non-string argument, which escapes
without a status).  The concrete scenario stands: `T { SATURATE
{ PUSH "i" } }` with `max_saturate_iterations = 100` and a much larger
stack bound ends with `TERM_CYCLE_LIMIT` after 100 block executions. -/
theorem c6_saturate_iteration_bound_amended :
    (∀ (cfg : VMConfig) (fuel : Nat) (ops : List Operation) (s : VMState),
      (run cfg fuel (.sat ops cfg.max_saturate_iterations) s).2 ≤
        cfg.max_saturate_iterations + 1 ∧
      (run cfg fuel (.sat ops cfg.max_saturate_iterations) s).1.2 ≠
        some .breakBlock) ∧
    runSource { max_saturate_iterations := 100, max_stack_depth := 10000 }
        1000 "T \x7b SATURATE \x7b PUSH \"i\" \x7d \x7d" =
      some (.ok ⟨"TERM_CYCLE_LIMIT", 1, 101,
        ⟨List.replicate 100 "i", [], 100, 0⟩, [],
        some "SATURATE exceeded 100 iterations"⟩) :=
  ⟨fun cfg fuel ops s =>
    ⟨Nat.le_succ_of_le (satCount_le cfg fuel ops _ s),
     sat_no_breakBlock cfg fuel ops _ s⟩,
   by rfl⟩

/-- C6 witness: the amended iteration bound read off a concrete SATURATE
loop. -/
theorem c6_saturate_iteration_bound_amended_witness :
    (run defaultCfg 5 (.sat [] defaultCfg.max_saturate_iterations)
        initState).2 ≤ defaultCfg.max_saturate_iterations + 1 ∧
    (run defaultCfg 5 (.sat [] defaultCfg.max_saturate_iterations)
        initState).1.2 ≠ some .breakBlock :=
  ⟨(c6_saturate_iteration_bound_amended.1 defaultCfg 5 [] initState).1,
   (c6_saturate_iteration_bound_amended.1 defaultCfg 5 [] initState).2⟩

/-! ## C7 -/

/-- C7: if the block completes its very first iteration without an
exception and leaves stack and bindings equal (in the sense of
`states_equal`) to their values at the start of that iteration, the
SATURATE loop executes the block exactly once (block-execution count 1)
and returns that state without error. -/
theorem c7_fixed_point_single_iteration (cfg : VMConfig) (fuel : Nat)
    (ops : List Operation) (s s1 : VMState)
    (hmsi : 1 ≤ cfg.max_saturate_iterations)
    (hblock : (run cfg fuel (.blockOps ops) s).1 = (s1, none))
    (hfix : statesEqual (s.stack, s.bindings) (s1.stack, s1.bindings) = true) :
    run cfg (fuel + 1) (.sat ops cfg.max_saturate_iterations) s =
      ((s1, none), 1) := by
  obtain ⟨it, hiter⟩ : ∃ it, cfg.max_saturate_iterations = it + 1 :=
    ⟨cfg.max_saturate_iterations - 1, by omega⟩
  rw [hiter]
  simp only [run, hblock]
  rw [if_pos hfix]

/-- C7 witness: the empty block reaches the fixed point on its first
comparison, so the SATURATE over it finishes at once (and executes zero
inner operations). -/
theorem c7_fixed_point_single_iteration_witness :
    run defaultCfg 6 (.sat [] defaultCfg.max_saturate_iterations) initState =
      ((initState, none), 1) :=
  c7_fixed_point_single_iteration defaultCfg 5 [] initState initState
    (by decide) rfl rfl

/-! ## C10 -/

/-- C10: with `max_saturate_iterations = 0`, the SATURATE loop body never
runs: the `while` condition fails immediately and the trailing check
raises `CycleLimitError` with the state untouched and a block-execution
count of zero; end to end, even an empty-block SATURATE yields status
`TERM_CYCLE_LIMIT`. -/
theorem c10_zero_iteration_saturate :
    (∀ (cfg : VMConfig) (fuel : Nat) (ops : List Operation) (s : VMState),
      cfg.max_saturate_iterations = 0 →
      run cfg (fuel + 1) (.sat ops cfg.max_saturate_iterations) s =
        ((s, some (.cycleLimit ("SATURATE exceeded " ++
            toString cfg.max_saturate_iterations ++ " iterations"))), 0)) ∧
    runSource { max_saturate_iterations := 0 } 100
        "T \x7b SATURATE \x7b \x7d \x7d" =
      some (.ok ⟨"TERM_CYCLE_LIMIT", 1, 1, ⟨[], [], 0, 0⟩, [],
        some "SATURATE exceeded 0 iterations"⟩) := by
  constructor
  · intro cfg fuel ops s h
    simp only [run, h]
  · rfl

/-- C10 witness: the zero-budget law applied at a concrete configuration,
block and state. -/
theorem c10_zero_iteration_saturate_witness :
    run ({ max_saturate_iterations := 0 } : VMConfig) 3
        (.sat [] ({ max_saturate_iterations := 0 } :
          VMConfig).max_saturate_iterations) initState =
      ((initState, some (.cycleLimit ("SATURATE exceeded " ++
          toString ({ max_saturate_iterations := 0 } :
            VMConfig).max_saturate_iterations ++ " iterations"))), 0) :=
  c10_zero_iteration_saturate.1 { max_saturate_iterations := 0 } 2 []
    initState rfl

/-! ## C8 -/

/-- A nonempty prefix pins down the head of the longer list. -/
theorem isPrefixOf_cons_elim {a : Char} {as l : List Char}
    (h : (a :: as).isPrefixOf l = true) :
    ∃ bs, l = a :: bs ∧ as.isPrefixOf bs = true := by
  cases l with
  | nil => simp [List.isPrefixOf] at h
  | cons x xs =>
    simp only [List.isPrefixOf, Bool.and_eq_true, beq_iff_eq] at h
    exact ⟨xs, by rw [h.1], h.2⟩

/-- C8 counterexample: the bare condition `bound` (no key) returns the
boolean `False` (is the empty-string key bound?), and the word `depthz`
merely beginning with `depth` is accepted as a depth comparison returning
`True`; the claim says both shapes fail with `ConditionError`. -/
theorem c8_bare_bound_returns_bool :
    evaluateCondition "bound" [] [] = .ok false ∧
    evaluateCondition "depthz < 3" [] [] = .ok true :=
  ⟨rfl, rfl⟩

/-- C8 amended: after stripping, the evaluator dispatches on string
PREFIXES, not exact forms.  A condition starting with `depth` is treated
as a depth comparison (exactly three whitespace-separated fields, middle
operator in `<`, `>`, `==`, integer right-hand side — anything else is a
`ConditionError`); a condition starting with `bound` (resp. `unbound`)
returns a boolean — never an error — testing whether its second
whitespace field (the empty string if absent) is a key of the bindings;
a condition starting with none of the three prefixes fails with
`ConditionError`. -/
theorem c8_condition_prefix_dispatch_amended :
    ∀ (c : String) (st : List String) (b : List (String × String)),
      (("depth".data.isPrefixOf (pyStrip c).data = false ∧
        "bound".data.isPrefixOf (pyStrip c).data = false ∧
        "unbound".data.isPrefixOf (pyStrip c).data = false) →
        evaluateCondition c st b =
          .error ("Unknown condition type: " ++ pyStrip c)) ∧
      ("bound".data.isPrefixOf (pyStrip c).data = true →
        evaluateCondition c st b =
          .ok (dictHas b ((splitWs (pyStrip c)).getD 1 ""))) ∧
      ("unbound".data.isPrefixOf (pyStrip c).data = true →
        evaluateCondition c st b =
          .ok (!dictHas b ((splitWs (pyStrip c)).getD 1 ""))) ∧
      ("depth".data.isPrefixOf (pyStrip c).data = true →
        ((splitWs (pyStrip c)).length ≠ 3 ∨
          pyInt ((splitWs (pyStrip c)).getD 2 "") = none ∨
          ((splitWs (pyStrip c)).getD 1 "" ≠ "<" ∧
           (splitWs (pyStrip c)).getD 1 "" ≠ ">" ∧
           (splitWs (pyStrip c)).getD 1 "" ≠ "==")) →
        ∃ m, evaluateCondition c st b = .error m) ∧
      (∀ v : Int, "depth".data.isPrefixOf (pyStrip c).data = true →
        (splitWs (pyStrip c)).length = 3 →
        pyInt ((splitWs (pyStrip c)).getD 2 "") = some v →
        ((splitWs (pyStrip c)).getD 1 "" = "<" →
          evaluateCondition c st b = .ok (decide ((st.length : Int) < v))) ∧
        ((splitWs (pyStrip c)).getD 1 "" = ">" →
          evaluateCondition c st b = .ok (decide ((st.length : Int) > v))) ∧
        ((splitWs (pyStrip c)).getD 1 "" = "==" →
          evaluateCondition c st b = .ok ((st.length : Int) == v))) := by
  intro c st b
  refine ⟨?_, ?_, ?_, ?_, ?_⟩
  · rintro ⟨hd, hb, hu⟩
    simp only [evaluateCondition]
    rw [if_neg (by simp [hd]), if_neg (by simp [hb]), if_neg (by simp [hu])]
  · intro hb
    have hb' : ('b' :: "ound".data).isPrefixOf (pyStrip c).data = true := hb
    obtain ⟨bs, hbs, _⟩ := isPrefixOf_cons_elim hb'
    have hd : "depth".data.isPrefixOf (pyStrip c).data = false := by
      rw [hbs]; simp [List.isPrefixOf]
    simp only [evaluateCondition]
    rw [if_neg (by simp [hd]), if_pos hb]
  · intro hu
    have hu' : ('u' :: "nbound".data).isPrefixOf (pyStrip c).data = true := hu
    obtain ⟨bs, hbs, _⟩ := isPrefixOf_cons_elim hu'
    have hd : "depth".data.isPrefixOf (pyStrip c).data = false := by
      rw [hbs]; simp [List.isPrefixOf]
    have hb : "bound".data.isPrefixOf (pyStrip c).data = false := by
      rw [hbs]; simp [List.isPrefixOf]
    simp only [evaluateCondition]
    rw [if_neg (by simp [hd]), if_neg (by simp [hb]), if_pos hu]
  · intro hdp hbad
    simp only [evaluateCondition]
    rw [if_pos hdp]
    by_cases hlen3 : (splitWs (pyStrip c)).length = 3
    · have hbne : ((splitWs (pyStrip c)).length != 3) = false := by
        simp [hlen3]
      rw [if_neg (by simp [hbne])]
      rcases hpi : pyInt ((splitWs (pyStrip c)).getD 2 "") with _ | v
      · exact ⟨_, rfl⟩
      · rcases hbad with hlen | hint | hop
        · exact absurd hlen3 hlen
        · rw [hpi] at hint; cases hint
        · dsimp only
          rw [if_neg (fun hcon => hop.1 (beq_iff_eq.mp hcon)),
            if_neg (fun hcon => hop.2.1 (beq_iff_eq.mp hcon)),
            if_neg (fun hcon => hop.2.2 (beq_iff_eq.mp hcon))]
          exact ⟨_, rfl⟩
    · have hbne : ((splitWs (pyStrip c)).length != 3) = true := by
        simp [hlen3]
      rw [if_pos hbne]
      exact ⟨_, rfl⟩
  · intro v hdp hlen3 hpi
    have hbne : ((splitWs (pyStrip c)).length != 3) = false := by
      simp [hlen3]
    refine ⟨?_, ?_, ?_⟩ <;> intro hop <;>
      (simp only [evaluateCondition]
       rw [if_pos hdp, if_neg (by simp [hbne]), hpi]
       dsimp only)
    · rw [if_pos (beq_iff_eq.mpr hop)]
    · rw [if_neg (by rw [hop]; decide), if_pos (beq_iff_eq.mpr hop)]
    · rw [if_neg (by rw [hop]; decide), if_neg (by rw [hop]; decide),
        if_pos (beq_iff_eq.mpr hop)]

/-- C8 witness: the amended dispatch law at concrete conditions. -/
theorem c8_condition_prefix_dispatch_amended_witness :
    evaluateCondition "unbound k" [] [("k", "v")] = .ok false ∧
    evaluateCondition "zzz" [] [] =
      .error ("Unknown condition type: " ++ pyStrip "zzz") := by
  constructor
  · have h := (c8_condition_prefix_dispatch_amended "unbound k" []
      [("k", "v")]).2.2.1 (by decide)
    rw [h]; rfl
  · exact (c8_condition_prefix_dispatch_amended "zzz" [] []).1 (by decide)

/-! ## C9 -/

/-- Equality of VM states on every field except the trace. -/
def coreEq (s1 s2 : VMState) : Prop :=
  s1.stack = s2.stack ∧ s1.bindings = s2.bindings ∧
  s1.phase_counter = s2.phase_counter ∧
  s1.operation_counter = s2.operation_counter ∧
  s1.halted = s2.halted ∧ s1.current_phase_name = s2.current_phase_name

/-- Agreement of two configurations on every limit (only `trace_enabled`
may differ). -/
def limitsEq (c1 c2 : VMConfig) : Prop :=
  c1.max_operations = c2.max_operations ∧
  c1.max_stack_depth = c2.max_stack_depth ∧
  c1.max_saturate_iterations = c2.max_saturate_iterations ∧
  c1.max_bindings = c2.max_bindings

/-- An execution result with its trace removed. -/
def stripR (r : ExecutionResult) : ExecutionResult := {r with trace := []}

/-- `op_push` acts identically on trace-equivalent states under
stack-limit-equal configurations. -/
theorem opPush_core (c1 c2 : VMConfig)
    (hd : c1.max_stack_depth = c2.max_stack_depth) (v : ArgValue)
    (s1 s2 : VMState) (h : coreEq s1 s2) :
    coreEq (opPush c1 v s1).1 (opPush c2 v s2).1 ∧
    (opPush c1 v s1).2 = (opPush c2 v s2).2 := by
  obtain ⟨hst, hb, hpc, hoc, hh, hcp⟩ := h
  unfold opPush
  by_cases hc : s2.stack.length ≥ c2.max_stack_depth
  · rw [if_pos (by rw [hst, hd]; exact hc), if_pos hc]
    exact ⟨⟨hst, hb, hpc, hoc, hh, hcp⟩, by rw [hd]⟩
  · rw [if_neg (by rw [hst, hd]; exact hc), if_neg hc]
    exact ⟨⟨(by show s1.stack ++ _ = s2.stack ++ _; rw [hst]), hb, hpc, hoc,
      hh, hcp⟩, rfl⟩

/-- `op_invert` acts identically on trace-equivalent states. -/
theorem opInvert_core (s1 s2 : VMState) (h : coreEq s1 s2) :
    coreEq (opInvert s1).1 (opInvert s2).1 ∧
    (opInvert s1).2 = (opInvert s2).2 := by
  obtain ⟨hst, hb, hpc, hoc, hh, hcp⟩ := h
  exact ⟨⟨(by show s1.stack.reverse = s2.stack.reverse; rw [hst]), hb, hpc,
    hoc, hh, hcp⟩, rfl⟩

/-- `op_bind` acts identically on trace-equivalent states under
binding-limit-equal configurations. -/
theorem opBind_core (c1 c2 : VMConfig)
    (hd : c1.max_bindings = c2.max_bindings) (k v : ArgValue)
    (s1 s2 : VMState) (h : coreEq s1 s2) :
    coreEq (opBind c1 k v s1).1 (opBind c2 k v s2).1 ∧
    (opBind c1 k v s1).2 = (opBind c2 k v s2).2 := by
  obtain ⟨hst, hb, hpc, hoc, hh, hcp⟩ := h
  unfold opBind
  by_cases hc : s2.bindings.length ≥ c2.max_bindings
  · rw [if_pos (by rw [hb, hd]; exact hc), if_pos hc]
    exact ⟨⟨hst, hb, hpc, hoc, hh, hcp⟩, by rw [hd]⟩
  · rw [if_neg (by rw [hb, hd]; exact hc), if_neg hc]
    exact ⟨⟨hst, (by show dictSet s1.bindings _ _ = dictSet s2.bindings _ _; rw [hb]), hpc, hoc, hh, hcp⟩, rfl⟩

/-- `op_release` acts identically on trace-equivalent states. -/
theorem opRelease_core (k : ArgValue) (s1 s2 : VMState) (h : coreEq s1 s2) :
    coreEq (opRelease k s1).1 (opRelease k s2).1 ∧
    (opRelease k s1).2 = (opRelease k s2).2 := by
  obtain ⟨hst, hb, hpc, hoc, hh, hcp⟩ := h
  exact ⟨⟨hst, (by show dictDel s1.bindings _ = dictDel s2.bindings _; rw [hb]), hpc, hoc, hh, hcp⟩, rfl⟩

/-- `op_gate` acts identically on trace-equivalent states (the condition
reads only stack and bindings). -/
theorem opGate_core (v : ArgValue) (s1 s2 : VMState) (h : coreEq s1 s2) :
    coreEq (opGate v s1).1 (opGate v s2).1 ∧
    (opGate v s1).2 = (opGate v s2).2 := by
  have h1 := opGate_state v s1
  have h2 := opGate_state v s2
  refine ⟨by rw [h1, h2]; exact h, ?_⟩
  obtain ⟨hst, hb, hpc, hoc, hh, hcp⟩ := h
  cases v with
  | str c =>
    unfold opGate
    rw [hst, hb]
    cases hc : evaluateCondition c s2.stack s2.bindings with
    | ok bv => cases bv <;> simp [hc]
    | error m => simp [hc]
  | int i => rfl
  | block ops => rfl

/-- `op_witness` preserves trace-equivalence of states for ANY pair of
configurations: it only ever touches the trace. -/
theorem opWitness_core (c1 c2 : VMConfig) (s1 s2 : VMState)
    (h : coreEq s1 s2) :
    coreEq (opWitness c1 s1).1 (opWitness c2 s2).1 ∧
    (opWitness c1 s1).2 = (opWitness c2 s2).2 := by
  obtain ⟨hst, hb, hpc, hoc, hh, hcp⟩ := h
  unfold opWitness
  by_cases h1 : c1.trace_enabled = true <;>
    by_cases h2 : c2.trace_enabled = true <;>
      simp only [h1, h2, if_true, if_false, Bool.false_eq_true] <;>
        exact ⟨⟨hst, hb, hpc, hoc, hh, hcp⟩, trivial⟩

/-- `op_halt` acts identically on trace-equivalent states. -/
theorem opHalt_core (s1 s2 : VMState) (h : coreEq s1 s2) :
    coreEq (opHalt s1).1 (opHalt s2).1 ∧ (opHalt s1).2 = (opHalt s2).2 := by
  obtain ⟨hst, hb, hpc, hoc, hh, hcp⟩ := h
  exact ⟨⟨hst, hb, hpc, hoc, rfl, hcp⟩, rfl⟩

/-- The recursive VM core is oblivious to the trace: running the same
call from trace-equivalent states under configurations differing only in
`trace_enabled` yields trace-equivalent states, the same exception and
the same block-execution count. -/
theorem run_core (c1 c2 : VMConfig) (hl : limitsEq c1 c2) :
    ∀ (fuel : Nat) (call : RunCall) (s1 s2 : VMState), coreEq s1 s2 →
      coreEq (run c1 fuel call s1).1.1 (run c2 fuel call s2).1.1 ∧
      (run c1 fuel call s1).1.2 = (run c2 fuel call s2).1.2 ∧
      (run c1 fuel call s1).2 = (run c2 fuel call s2).2 := by
  intro fuel
  induction fuel with
  | zero => intro call s1 s2 h; exact ⟨h, rfl, rfl⟩
  | succ f ih =>
    intro call s1 s2 hcore
    obtain ⟨hst, hb, hpc, hoc, hh, hcp⟩ := hcore
    have hcore : coreEq s1 s2 := ⟨hst, hb, hpc, hoc, hh, hcp⟩
    cases call with
    | op o =>
      obtain ⟨operator, args, line⟩ := o
      simp only [run]
      by_cases hlim : s2.operation_counter ≥ c2.max_operations
      · rw [if_pos (by rw [hoc, hl.1]; exact hlim), if_pos hlim]
        exact ⟨hcore, by rw [hl.1], rfl⟩
      rw [if_neg (by rw [hoc, hl.1]; exact hlim), if_neg hlim]
      have h1 : coreEq {s1 with operation_counter := s1.operation_counter + 1}
          {s2 with operation_counter := s2.operation_counter + 1} :=
        ⟨hst, hb, hpc, (by show s1.operation_counter + 1 = _; rw [hoc]), hh,
          hcp⟩
      by_cases hP : (operator == "PUSH") = true
      · rw [if_pos hP, if_pos hP]
        cases args with
        | nil => exact ⟨h1, rfl, rfl⟩
        | cons a rest =>
          have hx := opPush_core c1 c2 hl.2.1 a.value _ _ h1
          exact ⟨hx.1, hx.2, rfl⟩
      rw [if_neg hP, if_neg hP]
      by_cases hI : (operator == "INVERT") = true
      · rw [if_pos hI, if_pos hI]
        have hx := opInvert_core _ _ h1
        exact ⟨hx.1, hx.2, rfl⟩
      rw [if_neg hI, if_neg hI]
      by_cases hB : (operator == "BIND") = true
      · rw [if_pos hB, if_pos hB]
        cases args with
        | nil => exact ⟨h1, rfl, rfl⟩
        | cons a rest =>
          cases rest with
          | nil => exact ⟨h1, rfl, rfl⟩
          | cons b rest2 =>
            have hx := opBind_core c1 c2 hl.2.2.2 a.value b.value _ _ h1
            exact ⟨hx.1, hx.2, rfl⟩
      rw [if_neg hB, if_neg hB]
      by_cases hR : (operator == "RELEASE") = true
      · rw [if_pos hR, if_pos hR]
        cases args with
        | nil => exact ⟨h1, rfl, rfl⟩
        | cons a rest =>
          have hx := opRelease_core a.value _ _ h1
          exact ⟨hx.1, hx.2, rfl⟩
      rw [if_neg hR, if_neg hR]
      by_cases hG : (operator == "GATE") = true
      · rw [if_pos hG, if_pos hG]
        cases args with
        | nil => exact ⟨h1, rfl, rfl⟩
        | cons a rest =>
          have hx := opGate_core a.value _ _ h1
          exact ⟨hx.1, hx.2, rfl⟩
      rw [if_neg hG, if_neg hG]
      by_cases hS : (operator == "SATURATE") = true
      · rw [if_pos hS, if_pos hS]
        cases args with
        | nil => exact ⟨h1, rfl, rfl⟩
        | cons a rest =>
          obtain ⟨ty, av⟩ := a
          cases av with
          | str cs => exact ⟨h1, rfl, rfl⟩
          | int i => exact ⟨h1, rfl, rfl⟩
          | block ops =>
            dsimp only
            rw [show c1.max_saturate_iterations = c2.max_saturate_iterations
              from hl.2.2.1]
            have hx := ih (.sat ops c2.max_saturate_iterations) _ _ h1
            exact ⟨hx.1, hx.2.1, rfl⟩
      rw [if_neg hS, if_neg hS]
      by_cases hW : (operator == "WITNESS") = true
      · rw [if_pos hW, if_pos hW]
        have hx := opWitness_core c1 c2 _ _ h1
        exact ⟨hx.1, hx.2, rfl⟩
      rw [if_neg hW, if_neg hW]
      by_cases hH : (operator == "HALT") = true
      · rw [if_pos hH, if_pos hH]
        have hx := opHalt_core _ _ h1
        exact ⟨hx.1, hx.2, rfl⟩
      rw [if_neg hH, if_neg hH]
      exact ⟨h1, rfl, rfl⟩
    | blockOps ops =>
      cases ops with
      | nil => exact ⟨hcore, rfl, rfl⟩
      | cons o rest =>
        have hstep := ih (.op o) s1 s2 hcore
        rcases hr1 : (run c1 f (.op o) s1).1 with ⟨t1, e1⟩
        rcases hr2 : (run c2 f (.op o) s2).1 with ⟨t2, e2⟩
        rw [hr1, hr2] at hstep
        obtain ⟨hte, hee, _⟩ := hstep
        simp only at hee
        subst hee
        simp only [run, hr1, hr2]
        cases e1 with
        | none =>
          have hx := ih (.blockOps rest) t1 t2 hte
          exact ⟨hx.1, hx.2.1, rfl⟩
        | some e' => exact ⟨hte, rfl, rfl⟩
    | sat ops iter =>
      cases iter with
      | zero => exact ⟨hcore, by simp only [run]; rw [hl.2.2.1], rfl⟩
      | succ it =>
        have hstep := ih (.blockOps ops) s1 s2 hcore
        rcases hr1 : (run c1 f (.blockOps ops) s1).1 with ⟨t1, e1⟩
        rcases hr2 : (run c2 f (.blockOps ops) s2).1 with ⟨t2, e2⟩
        rw [hr1, hr2] at hstep
        obtain ⟨hte, hee, _⟩ := hstep
        simp only at hee
        subst hee
        simp only [run, hr1, hr2]
        cases e1 with
        | none =>
          dsimp only
          by_cases hfix :
              statesEqual (s2.stack, s2.bindings) (t2.stack, t2.bindings) =
                true
          · rw [if_pos (by rw [hst, hb, hte.1, hte.2.1]; exact hfix),
              if_pos hfix]
            exact ⟨hte, rfl, rfl⟩
          · rw [if_neg (by rw [hst, hb, hte.1, hte.2.1]; exact hfix),
              if_neg hfix]
            have hx := ih (.sat ops it) t1 t2 hte
            exact ⟨hx.1, hx.2.1, by rw [hx.2.2]⟩
        | some e' =>
          cases e' <;> exact ⟨hte, rfl, rfl⟩

/-- `execute_phase` is oblivious to the trace. -/
theorem execPhaseOps_core (c1 c2 : VMConfig) (hl : limitsEq c1 c2)
    (fuel : Nat) :
    ∀ (ops : List Operation) (s1 s2 : VMState), coreEq s1 s2 →
      coreEq (execPhaseOps c1 fuel ops s1).1
        (execPhaseOps c2 fuel ops s2).1 ∧
      (execPhaseOps c1 fuel ops s1).2 = (execPhaseOps c2 fuel ops s2).2 := by
  intro ops
  induction ops with
  | nil => intro s1 s2 h; exact ⟨h, rfl⟩
  | cons o rest ih =>
    intro s1 s2 h
    simp only [execPhaseOps]
    by_cases hh2 : s2.halted = true
    · rw [if_pos (by rw [h.2.2.2.2.1]; exact hh2), if_pos hh2]
      exact ⟨h, rfl⟩
    rw [if_neg (by rw [h.2.2.2.2.1]; exact hh2), if_neg hh2]
    have hstep := run_core c1 c2 hl fuel (.op o) s1 s2 h
    rcases hr1 : (run c1 fuel (.op o) s1).1 with ⟨t1, e1⟩
    rcases hr2 : (run c2 fuel (.op o) s2).1 with ⟨t2, e2⟩
    rw [hr1, hr2] at hstep
    obtain ⟨hte, hee, _⟩ := hstep
    simp only at hee
    subst hee
    cases e1 with
    | none => exact ih t1 t2 hte
    | some e' => exact ⟨hte, rfl⟩

/-- The phase loop of `execute` is oblivious to the trace. -/
theorem execPhases_core (c1 c2 : VMConfig) (hl : limitsEq c1 c2)
    (fuel : Nat) :
    ∀ (phases : List Phase) (s1 s2 : VMState), coreEq s1 s2 →
      coreEq (execPhases c1 fuel phases s1).1
        (execPhases c2 fuel phases s2).1 ∧
      (execPhases c1 fuel phases s1).2 =
        (execPhases c2 fuel phases s2).2 := by
  intro phases
  induction phases with
  | nil => intro s1 s2 h; exact ⟨h, rfl⟩
  | cons ph rest ih =>
    intro s1 s2 h
    simp only [execPhases]
    by_cases hh2 : s2.halted = true
    · rw [if_pos (by rw [h.2.2.2.2.1]; exact hh2), if_pos hh2]
      exact ⟨h, rfl⟩
    rw [if_neg (by rw [h.2.2.2.2.1]; exact hh2), if_neg hh2]
    have h1 : coreEq {s1 with current_phase_name := some ph.name, phase_counter := s1.phase_counter + 1} {s2 with current_phase_name := some ph.name, phase_counter := s2.phase_counter + 1} :=
      ⟨h.1, h.2.1, (by show s1.phase_counter + 1 = _; rw [h.2.2.1]),
        h.2.2.2.1, h.2.2.2.2.1, rfl⟩
    have hstep := execPhaseOps_core c1 c2 hl fuel ph.operations _ _ h1
    rcases hr1 : execPhaseOps c1 fuel ph.operations {s1 with current_phase_name := some ph.name, phase_counter := s1.phase_counter + 1} with ⟨t1, e1⟩
    rcases hr2 : execPhaseOps c2 fuel ph.operations {s2 with current_phase_name := some ph.name, phase_counter := s2.phase_counter + 1} with ⟨t2, e2⟩
    rw [hr1, hr2] at hstep
    obtain ⟨hte, hee⟩ := hstep
    simp only at hee
    subst hee
    cases e1 with
    | none => exact ih t1 t2 hte
    | some e' => exact ⟨hte, rfl⟩

/-- C9: flipping `trace_enabled` (while keeping every limit) never changes
the status, final state, phase count, operation count, or whether and with
which exception execution escapes — after erasing the trace, the results
of the two executions are identical. -/
theorem c9_trace_transparency :
    ∀ (cfg : VMConfig) (b : Bool) (fuel : Nat) (p : Program),
      (executeProgram {cfg with trace_enabled := b} fuel p).map stripR =
        (executeProgram cfg fuel p).map stripR := by
  intro cfg b fuel p
  have hl : limitsEq {cfg with trace_enabled := b} cfg := ⟨rfl, rfl, rfl, rfl⟩
  have hx := execPhases_core _ cfg hl fuel p.phases initState initState
    ⟨rfl, rfl, rfl, rfl, rfl, rfl⟩
  unfold executeProgram
  rcases hr1 : execPhases {cfg with trace_enabled := b} fuel p.phases
    initState with ⟨s1, e1⟩
  rcases hr2 : execPhases cfg fuel p.phases initState with ⟨s2, e2⟩
  rw [hr1, hr2] at hx
  obtain ⟨hse, hee⟩ := hx
  simp only at hee
  subst hee
  obtain ⟨h1, h2, h3, h4, h5, h6⟩ := hse
  cases e1 with
  | none =>
    simp only [Except.map]
    congr 1
    simp only [stripR, mkResult]
    rw [h1, h2, h3, h4, h5]
  | some e' =>
    cases e' <;>
      first
        | rfl
        | (simp only [Except.map]; congr 1; simp only [stripR, mkResult];
           rw [h1, h2, h3, h4])

end Liminal
